import Mathlib

/-!
Verification of wg-busy (WireGuard server manager) against its
natural-language specification.

The development shallowly embeds the Go sources:
  - internal/routing/routing.go   (policy-routing command generation,
    routing-table allocation)
  - internal/wireguard/wireguard.go (wg0.conf rendering)
  - internal/config/config.go     (config store write pipeline)
  - internal/handlers/peers.go    (peer mutation entry points)
  - internal/ipam (NextAvailableIP)
  - internal/wgstats/wgstats.go   (telemetry collector)

Go machine integers are modelled as Nat/Int, Go strings as String,
Go slices as List, Go maps as association lists in insertion order
(with an explicit iteration-order parameter where the Go map's
unspecified iteration order is observable), float64 rates as Rat,
and time.Time instants as Rat seconds.

The internal/models package's source (entities, validation,
CascadeClearExitNode, FindPeerByID, FirstIP) is included in
src/README.md after the document separator; the models.* helpers the
embedded code calls are embedded from that source.  Address parsing
is modelled for dotted-quad IPv4; an IPv6 literal is treated as
unparseable, which no theorem's truth depends on (every concrete
input in this file is IPv4, and the generator theorems do not depend
on FirstIP's value).
-/

namespace WgBusy

/-- Peer entity (`models.Peer`, src/README.md models section).  Timestamps
are modelled as Nat instants. -/
structure Peer where
  ID : String := ""
  Name : String := ""
  PrivateKey : String := ""
  PublicKey : String := ""
  PresharedKey : String := ""
  AllowedIPs : String := ""
  Endpoint : String := ""
  PersistentKeepalive : Nat := 0
  DNS : String := ""
  ClientAllowedIPs : String := ""
  IsExitNode : Bool := false
  ExitNodeID : String := ""
  RoutingTableID : Nat := 0
  Enabled : Bool := false
  CreatedAt : Nat := 0
  UpdatedAt : Nat := 0
  deriving DecidableEq, Repr

/-- Server configuration (`models.ServerConfig`, src/README.md models
section). -/
structure ServerConfig where
  PrivateKey : String := ""
  ListenPort : Nat := 0
  Address : String := ""
  DNS : String := ""
  MTU : Nat := 0
  Table : String := ""
  FwMark : String := ""
  PreUp : String := ""
  PostUp : String := ""
  PreDown : String := ""
  PostDown : String := ""
  SaveConfig : Bool := false
  Endpoint : String := ""
  deriving DecidableEq, Repr

/-- Aggregate root: one server plus the ordered peer list. -/
structure AppConfig where
  Server : ServerConfig := {}
  Peers : List Peer := []
  deriving DecidableEq, Repr

/-- Characters of a string with leading and trailing whitespace removed
(Go's `strings.TrimSpace`, over the character list). -/
def trimChars (l : List Char) : List Char :=
  ((l.dropWhile (·.isWhitespace)).reverse.dropWhile (·.isWhitespace)).reverse

/-- Go's `strings.TrimSpace`. -/
def strTrim (s : String) : String := String.mk (trimChars s.data)

/-- The value of a decimal digit string (Go's `dtoi`, for in-range inputs). -/
def digitsVal (l : List Char) : Nat :=
  l.foldl (fun acc c => acc * 10 + (c.toNat - 48)) 0

/-- `strings.Split` on a one-character separator, over character lists:
always at least one (possibly empty) field. -/
def splitChars (sep : Char) : List Char → List (List Char)
  | [] => [[]]
  | c :: rest =>
    let r := splitChars sep rest
    if c = sep then [] :: r
    else (c :: r.headD []) :: r.tail

/-- One field of a dotted-quad IPv4 address as `net/netip.ParseAddr` accepts
it: one to three digits, no leading zero, value at most 255. -/
def validOctet (l : List Char) : Bool :=
  decide (0 < l.length) && decide (l.length ≤ 3) && l.all (·.isDigit)
    && !(decide (1 < l.length) && (l.headD '0' == '0'))
    && decide (digitsVal l ≤ 255)

/-- A dotted-quad IPv4 address: exactly four valid fields. -/
def validIPv4 (l : List Char) : Bool :=
  decide ((splitChars '.' l).length = 4) && (splitChars '.' l).all validOctet

/-- A CIDR prefix length as `net.ParseCIDR` accepts it: a nonempty decimal
digit string whose value is at most `maxBits`. -/
def validMaskLen (l : List Char) (maxBits : Nat) : Bool :=
  decide (0 < l.length) && l.all (·.isDigit) && decide (digitsVal l ≤ maxBits)

/-- `net.ParseCIDR` for dotted-quad IPv4 input, returning `ip.String()` of
the address part: the text before the first slash must be a valid dotted
quad (for which `ip.String()` reproduces the input text, since the grammar
forbids leading zeros) and the text after it a decimal prefix length 0..32.
IPv6 CIDRs are not modelled and are treated as unparseable. -/
def parseCIDRAddr (s : String) : Option String :=
  let addr := s.data.takeWhile (· != '/')
  if addr.length = s.data.length then none
  else if validIPv4 addr && validMaskLen (s.data.drop (addr.length + 1)) 32 then
    some (String.mk addr)
  else none

/-- `models.FirstIP` (src/README.md, models section): take the first
comma-separated field, trim it, parse it as a CIDR; the address without its
mask on success, the empty string when it does not parse. -/
def FirstIP (s : String) : String :=
  match parseCIDRAddr (String.mk (trimChars (s.data.takeWhile (· != ',')))) with
  | some ip => ip
  | none => ""

/-- `models.FindPeerByID` (src/README.md, models section): a pointer to the
first peer of the list with the given identifier, or nil. -/
def FindPeerByID (peers : List Peer) (id : String) : Option Peer :=
  peers.find? (fun p => p.ID == id)

/-- `models.CascadeClearExitNode` (src/README.md, models section): clear the
exit-node reference of every peer whose reference equals the given id. -/
def CascadeClearExitNode (peers : List Peer) (id : String) : List Peer :=
  peers.map (fun p => if p.ExitNodeID = id then { p with ExitNodeID := "" } else p)

/-! ## internal/routing/routing.go -/

/-- Setting a key in a Go `map[string]Peer`, modelled on an association list
in insertion order: replace the value of an existing key, else append. -/
def mapSet (m : List (String × Peer)) (k : String) (v : Peer) : List (String × Peer) :=
  if m.any (fun e => e.1 == k) then
    m.map (fun e => if e.1 == k then (k, v) else e)
  else m ++ [(k, v)]

/-- Go map lookup on the association-list model. -/
def mapGet (m : List (String × Peer)) (k : String) : Option Peer :=
  (m.find? (fun e => e.1 == k)).map Prod.snd

/-- The `exitNodes` map both generators build: id -> peer, for every peer
that is an enabled exit node with an allocated routing table
(routing.go lines 29-34 and 78-83). -/
def exitNodesMap (cfg : AppConfig) : List (String × Peer) :=
  cfg.Peers.foldl
    (fun m p =>
      if p.IsExitNode ∧ p.Enabled ∧ 0 < p.RoutingTableID then mapSet m p.ID p else m)
    []

/-- One canonical iteration order of the `exitNodes` map: the association
list's insertion order.  Go leaves a map's iteration order unspecified, so
the generators below also take the order as an explicit parameter. -/
def exitNodesIter (cfg : AppConfig) : List Peer :=
  (exitNodesMap cfg).map Prod.snd

/-- routing.go line 52. -/
def routeAddCmd (ip : String) (tbl : Nat) : String :=
  "ip route add default via " ++ ip ++ " dev wg0 table " ++ toString tbl

/-- routing.go line 117. -/
def routeDelCmd (ip : String) (tbl : Nat) : String :=
  "ip route del default via " ++ ip ++ " dev wg0 table " ++ toString tbl

/-- routing.go line 69. -/
def ruleAddCmd (ip : String) (tbl : Nat) : String :=
  "ip rule add from " ++ ip ++ " table " ++ toString tbl

/-- routing.go line 104. -/
def ruleDelCmd (ip : String) (tbl : Nat) : String :=
  "ip rule del from " ++ ip ++ " table " ++ toString tbl

/-- The route-command loop of both generators (routing.go lines 43-54 and
108-119): iterate over the exit nodes in map-iteration order, skip a
routing-table id already handled, skip an exit node without a first tunnel
address, else emit one command and mark the table id. -/
def routeCmdsFrom (mkCmd : String → Nat → String) : List Peer → List Nat → List String
  | [], _ => []
  | en :: rest, added =>
    if en.RoutingTableID ∈ added then routeCmdsFrom mkCmd rest added
    else if FirstIP en.AllowedIPs = "" then routeCmdsFrom mkCmd rest added
    else mkCmd (FirstIP en.AllowedIPs) en.RoutingTableID ::
      routeCmdsFrom mkCmd rest (en.RoutingTableID :: added)

/-- The policy-rule loop of both generators (routing.go lines 57-70 and
92-105): for every enabled peer with an exit-node reference that resolves in
the exitNodes map and with a nonempty first tunnel address, emit one command
against the exit node's table. -/
def rulePeerCmd (mkCmd : String → Nat → String) (m : List (String × Peer))
    (p : Peer) : Option String :=
  if ¬p.Enabled ∨ p.ExitNodeID = "" then none
  else
    match mapGet m p.ExitNodeID with
    | none => none
    | some en =>
      if FirstIP p.AllowedIPs = "" then none
      else some (mkCmd (FirstIP p.AllowedIPs) en.RoutingTableID)

def ruleCmdsFor (mkCmd : String → Nat → String) (m : List (String × Peer))
    (peers : List Peer) : List String :=
  peers.filterMap (rulePeerCmd mkCmd m)

/-- `GeneratePostUpCommands`, parameterized by the iteration order of the
`exitNodes` map (routing.go lines 28-73).  Route commands first, then policy
rules; nil when there is no eligible exit node. -/
def GeneratePostUpCommandsWith (ord : List Peer) (cfg : AppConfig) : List String :=
  let m := exitNodesMap cfg
  if m.length = 0 then []
  else routeCmdsFrom routeAddCmd ord [] ++ ruleCmdsFor ruleAddCmd m cfg.Peers

/-- `GeneratePostDownCommands`, parameterized by the iteration order of the
`exitNodes` map (routing.go lines 77-122).  Policy rules removed first, then
route commands; nil when there is no eligible exit node. -/
def GeneratePostDownCommandsWith (ord : List Peer) (cfg : AppConfig) : List String :=
  let m := exitNodesMap cfg
  if m.length = 0 then []
  else ruleCmdsFor ruleDelCmd m cfg.Peers ++ routeCmdsFrom routeDelCmd ord []

/-- `GeneratePostUpCommands` at the canonical iteration order. -/
def GeneratePostUpCommands (cfg : AppConfig) : List String :=
  GeneratePostUpCommandsWith (exitNodesIter cfg) cfg

/-- `GeneratePostDownCommands` at the canonical iteration order. -/
def GeneratePostDownCommands (cfg : AppConfig) : List String :=
  GeneratePostDownCommandsWith (exitNodesIter cfg) cfg

/-- The routing-table ids currently held by peers
(routing.go lines 13-18: ids with `RoutingTableID > 0`). -/
def usedTableIDs (peers : List Peer) : List Nat :=
  peers.filterMap (fun p => if 0 < p.RoutingTableID then some p.RoutingTableID else none)

theorem le_foldr_max (a : Nat) (l : List Nat) (b : Nat) (h : a ∈ l) :
    a ≤ l.foldr max b := by
  induction l with
  | nil => cases h
  | cons x xs ih =>
    rcases List.mem_cons.mp h with rfl | hmem
    · exact le_max_left _ _
    · exact le_trans (ih hmem) (le_max_right _ _)

theorem usedTableIDs_free (peers : List Peer) :
    ∃ k, (100 + k) ∉ usedTableIDs peers := by
  refine ⟨(usedTableIDs peers).foldr max 0 + 1, fun hmem => ?_⟩
  have := le_foldr_max _ _ 0 hmem
  omega

/-- `AssignRoutingTableID` (routing.go lines 12-24): the unbounded scan
`for id := 100; ; id++` returning the first id not held by any peer, modelled
as the least `100 + k` outside `usedTableIDs`. -/
def AssignRoutingTableID (peers : List Peer) : Nat :=
  100 + Nat.find (usedTableIDs_free peers)

theorem mem_usedTableIDs (peers : List Peer) (t : Nat) :
    t ∈ usedTableIDs peers ↔ ∃ p ∈ peers, 0 < p.RoutingTableID ∧ p.RoutingTableID = t := by
  simp only [usedTableIDs, List.mem_filterMap]
  constructor
  · rintro ⟨p, hp, hsome⟩
    by_cases h : 0 < p.RoutingTableID
    · simp only [h, if_pos] at hsome
      exact ⟨p, hp, h, Option.some.inj hsome⟩
    · simp [h] at hsome
  · rintro ⟨p, hp, hpos, rfl⟩
    exact ⟨p, hp, by simp [hpos]⟩

/-- C7: `AssignRoutingTableID` returns the smallest integer at least 100 not
currently held as a routing-table identifier by any peer in the list; by
minimality, an identifier just released is returned before any larger unused
one. -/
theorem AssignRoutingTableID_minimal_free (peers : List Peer) :
    100 ≤ AssignRoutingTableID peers
    ∧ (¬ ∃ p ∈ peers, p.RoutingTableID = AssignRoutingTableID peers)
    ∧ ∀ t, 100 ≤ t → (¬ ∃ p ∈ peers, p.RoutingTableID = t) →
        AssignRoutingTableID peers ≤ t := by
  refine ⟨Nat.le_add_right _ _, ?_, ?_⟩
  · rintro ⟨p, hp, hpt⟩
    have hfree := Nat.find_spec (usedTableIDs_free peers)
    exact hfree ((mem_usedTableIDs peers _).mpr
      ⟨p, hp, by unfold AssignRoutingTableID at hpt; omega, hpt⟩)
  · intro t ht hnone
    have hnotmem : (100 + (t - 100)) ∉ usedTableIDs peers := by
      have : 100 + (t - 100) = t := by omega
      rw [this]
      intro hmem
      rcases (mem_usedTableIDs peers t).mp hmem with ⟨p, hp, _, hpt⟩
      exact hnone ⟨p, hp, hpt⟩
    have := Nat.find_min' (usedTableIDs_free peers) hnotmem
    unfold AssignRoutingTableID
    omega

/-! ## C2: structure of the activation / deactivation command lists -/

/-- A generated policy-routing command, abstracted from its rendered string:
either a default-route command for an exit node's table or a policy-rule
command for a referencing peer. -/
inductive RCmd where
  | route (ip : String) (tbl : Nat)
  | rule (ip : String) (tbl : Nat)
  deriving DecidableEq, Repr

/-- The "add" rendering of a command, exactly as routing.go prints it. -/
def RCmd.add : RCmd → String
  | .route ip tbl => routeAddCmd ip tbl
  | .rule ip tbl => ruleAddCmd ip tbl

/-- The matching "del" rendering of the same command. -/
def RCmd.del : RCmd → String
  | .route ip tbl => routeDelCmd ip tbl
  | .rule ip tbl => ruleDelCmd ip tbl

/-- The (ip, table) entries the route-command loop emits, in order. -/
def routeEntriesFrom : List Peer → List Nat → List RCmd
  | [], _ => []
  | en :: rest, added =>
    if en.RoutingTableID ∈ added then routeEntriesFrom rest added
    else if FirstIP en.AllowedIPs = "" then routeEntriesFrom rest added
    else .route (FirstIP en.AllowedIPs) en.RoutingTableID ::
      routeEntriesFrom rest (en.RoutingTableID :: added)

/-- The (ip, table) entry the policy-rule loop emits for one peer. -/
def rulePeerEntry (m : List (String × Peer)) (p : Peer) : Option RCmd :=
  if ¬p.Enabled ∨ p.ExitNodeID = "" then none
  else
    match mapGet m p.ExitNodeID with
    | none => none
    | some en =>
      if FirstIP p.AllowedIPs = "" then none
      else some (.rule (FirstIP p.AllowedIPs) en.RoutingTableID)

/-- The (ip, table) entries the policy-rule loop emits, in order. -/
def ruleEntriesFor (m : List (String × Peer)) (peers : List Peer) : List RCmd :=
  peers.filterMap (rulePeerEntry m)

/-- The activation list's command structure at the canonical map order:
route block then rule block. -/
def postUpStructure (cfg : AppConfig) : List RCmd :=
  routeEntriesFrom (exitNodesIter cfg) [] ++ ruleEntriesFor (exitNodesMap cfg) cfg.Peers

theorem routeCmdsFrom_eq_map (mk : String → Nat → String) (F : RCmd → String)
    (hmk : ∀ ip tbl, mk ip tbl = F (RCmd.route ip tbl)) :
    ∀ (ord : List Peer) (added : List Nat),
      routeCmdsFrom mk ord added = (routeEntriesFrom ord added).map F := by
  intro ord
  induction ord with
  | nil => intro added; rfl
  | cons en rest ih =>
    intro added
    simp only [routeCmdsFrom, routeEntriesFrom]
    by_cases h1 : en.RoutingTableID ∈ added
    · simp [h1, ih]
    · by_cases h2 : FirstIP en.AllowedIPs = ""
      · simp [h1, h2, ih]
      · simp [h1, h2, ih, hmk]

theorem rulePeerCmd_eq_map (mk : String → Nat → String) (F : RCmd → String)
    (hmk : ∀ ip tbl, mk ip tbl = F (RCmd.rule ip tbl))
    (m : List (String × Peer)) (p : Peer) :
    rulePeerCmd mk m p = (rulePeerEntry m p).map F := by
  rw [rulePeerCmd, rulePeerEntry]
  by_cases h1 : p.Enabled = false ∨ p.ExitNodeID = ""
  · simp [h1]
  · cases hm : mapGet m p.ExitNodeID with
    | none => simp [h1, hm]
    | some en =>
      by_cases h2 : FirstIP p.AllowedIPs = ""
      · simp [h1, hm, h2]
      · simp [h1, hm, h2, hmk]

theorem ruleCmdsFor_eq_map (mk : String → Nat → String) (F : RCmd → String)
    (hmk : ∀ ip tbl, mk ip tbl = F (RCmd.rule ip tbl))
    (m : List (String × Peer)) (peers : List Peer) :
    ruleCmdsFor mk m peers = (ruleEntriesFor m peers).map F := by
  rw [ruleCmdsFor, ruleEntriesFor, List.map_filterMap]
  exact congrFun
    (congrArg List.filterMap (funext (rulePeerCmd_eq_map mk F hmk m))) peers

theorem ruleEntriesFor_nil_map (peers : List Peer) : ruleEntriesFor [] peers = [] := by
  rw [ruleEntriesFor, List.filterMap_eq_nil_iff]
  intro p _
  rw [rulePeerEntry]
  by_cases h1 : ¬p.Enabled ∨ p.ExitNodeID = "" <;> simp [h1, mapGet]

/-- C2 (amended): for any common iteration order of the exit-node map, the
activation list is the route-add block followed by the rule-add block and the
deactivation list is the rule-del block followed by the route-del block,
both built from the same entry lists.  So every "add" has a matching "del"
and the two blocks are torn down in reversed block order, but inside each
block the del ordering equals the add ordering — it is not reversed. -/
theorem postUpDown_blockwise (cfg : AppConfig) (ord : List Peer)
    (hord : ord.Perm (exitNodesIter cfg)) :
    GeneratePostUpCommandsWith ord cfg
        = (routeEntriesFrom ord []).map RCmd.add
          ++ (ruleEntriesFor (exitNodesMap cfg) cfg.Peers).map RCmd.add
    ∧ GeneratePostDownCommandsWith ord cfg
        = (ruleEntriesFor (exitNodesMap cfg) cfg.Peers).map RCmd.del
          ++ (routeEntriesFrom ord []).map RCmd.del := by
  by_cases hlen : (exitNodesMap cfg).length = 0
  · have hm : exitNodesMap cfg = [] := List.length_eq_zero.mp hlen
    have hord' : ord = [] := by
      have h := hord
      rw [exitNodesIter, hm] at h
      simpa using h.eq_nil
    subst hord'
    simp [GeneratePostUpCommandsWith, GeneratePostDownCommandsWith, hm,
      ruleEntriesFor_nil_map, routeEntriesFrom]
  · constructor
    · rw [GeneratePostUpCommandsWith]
      simp only [if_neg hlen]
      rw [routeCmdsFrom_eq_map routeAddCmd RCmd.add (fun _ _ => rfl),
        ruleCmdsFor_eq_map ruleAddCmd RCmd.add (fun _ _ => rfl)]
    · rw [GeneratePostDownCommandsWith]
      simp only [if_neg hlen]
      rw [routeCmdsFrom_eq_map routeDelCmd RCmd.del (fun _ _ => rfl),
        ruleCmdsFor_eq_map ruleDelCmd RCmd.del (fun _ _ => rfl)]

/-- C2 counterexample data: one enabled exit node with table 100 and two
enabled peers routing through it, all with well-formed key material. -/
def peerE : Peer :=
  { ID := "E", Name := "exit", AllowedIPs := "10.0.0.5/32", IsExitNode := true,
    RoutingTableID := 100, Enabled := true,
    PrivateKey := "EEEEEEEEEEEEEEEEEEEEEEEEEEEEEEEEEEEEEEEEEEE=",
    PublicKey := "eEEEEEEEEEEEEEEEEEEEEEEEEEEEEEEEEEEEEEEEEEE=" }

def peerA : Peer :=
  { ID := "A", Name := "alice", AllowedIPs := "10.0.0.2/32", ExitNodeID := "E",
    Enabled := true,
    PrivateKey := "AAAAAAAAAAAAAAAAAAAAAAAAAAAAAAAAAAAAAAAAAAA=",
    PublicKey := "aAAAAAAAAAAAAAAAAAAAAAAAAAAAAAAAAAAAAAAAAAA=" }

def peerB : Peer :=
  { ID := "B", Name := "bob", AllowedIPs := "10.0.0.3/32", ExitNodeID := "E",
    Enabled := true,
    PrivateKey := "BBBBBBBBBBBBBBBBBBBBBBBBBBBBBBBBBBBBBBBBBBB=",
    PublicKey := "bBBBBBBBBBBBBBBBBBBBBBBBBBBBBBBBBBBBBBBBBBB=" }

def cfgTwoRules : AppConfig := { Peers := [peerE, peerA, peerB] }

/-- Witness for `postUpDown_blockwise` at a concrete configuration. -/
theorem postUpDown_blockwise_witness :
    GeneratePostUpCommandsWith [peerE] cfgTwoRules
        = (routeEntriesFrom [peerE] []).map RCmd.add
          ++ (ruleEntriesFor (exitNodesMap cfgTwoRules) cfgTwoRules.Peers).map RCmd.add
    ∧ GeneratePostDownCommandsWith [peerE] cfgTwoRules
        = (ruleEntriesFor (exitNodesMap cfgTwoRules) cfgTwoRules.Peers).map RCmd.del
          ++ (routeEntriesFrom [peerE] []).map RCmd.del :=
  postUpDown_blockwise cfgTwoRules [peerE] (by decide)

/-- C2 counterexample: with one exit node and two referencing peers the
deactivation list keeps the two rule commands in creation order, so it is not
the strict reverse of the activation list with add matched to del. -/
theorem postDown_not_reverse_of_postUp :
    GeneratePostUpCommands cfgTwoRules = (postUpStructure cfgTwoRules).map RCmd.add
    ∧ GeneratePostUpCommands cfgTwoRules =
        [routeAddCmd "10.0.0.5" 100, ruleAddCmd "10.0.0.2" 100, ruleAddCmd "10.0.0.3" 100]
    ∧ GeneratePostDownCommands cfgTwoRules =
        [ruleDelCmd "10.0.0.2" 100, ruleDelCmd "10.0.0.3" 100, routeDelCmd "10.0.0.5" 100]
    ∧ GeneratePostDownCommands cfgTwoRules
        ≠ ((postUpStructure cfgTwoRules).reverse).map RCmd.del := by
  exact ⟨by decide, by decide, by decide, by decide⟩

/-! ## internal/wireguard/wireguard.go: wg0.conf rendering -/

/-- One optional template line: emitted with its leading newline when the
field is set (the template's dash-trimmed `if` blocks). -/
def optLine (cond : Bool) (line : String) : String :=
  if cond then "\n" ++ line else ""

/-- The `[Interface]` part of `serverConfTmpl` (wireguard.go lines 65-101):
required fields, optional fields, the user hook lines, then the generated
PostUp commands followed by the generated PostDown commands. -/
def interfaceSection (s : ServerConfig) (postUpCmds postDownCmds : List String) : String :=
  "[Interface]\nPrivateKey = " ++ s.PrivateKey
  ++ "\nListenPort = " ++ toString s.ListenPort
  ++ "\nAddress = " ++ s.Address
  ++ optLine (s.DNS != "") ("DNS = " ++ s.DNS)
  ++ optLine (s.MTU != 0) ("MTU = " ++ toString s.MTU)
  ++ optLine (s.Table != "") ("Table = " ++ s.Table)
  ++ optLine (s.FwMark != "") ("FwMark = " ++ s.FwMark)
  ++ optLine s.SaveConfig "SaveConfig = true"
  ++ optLine (s.PreUp != "") ("PreUp = " ++ s.PreUp)
  ++ optLine (s.PostUp != "") ("PostUp = " ++ s.PostUp)
  ++ String.join (postUpCmds.map (fun c => "\nPostUp = " ++ c))
  ++ String.join (postDownCmds.map (fun c => "\nPostDown = " ++ c))
  ++ optLine (s.PostDown != "") ("PostDown = " ++ s.PostDown)
  ++ optLine (s.PreDown != "") ("PreDown = " ++ s.PreDown)

/-- One `[Peer]` section of `serverConfTmpl` (wireguard.go lines 102-116),
with the already-computed effective AllowedIPs value. -/
def peerSection (p : Peer) (eff : String) : String :=
  "\n[Peer]\n# " ++ p.Name
  ++ "\nPublicKey = " ++ p.PublicKey
  ++ optLine (p.PresharedKey != "") ("PresharedKey = " ++ p.PresharedKey)
  ++ "\nAllowedIPs = " ++ eff
  ++ optLine (p.Endpoint != "") ("Endpoint = " ++ p.Endpoint)
  ++ optLine (p.PersistentKeepalive != 0)
      ("PersistentKeepalive = " ++ toString p.PersistentKeepalive)
  ++ "\n"

/-- The peer loop of `RenderServerConfig` (wireguard.go lines 121-134): skip
disabled peers; an exit-node peer's effective AllowedIPs is unconditionally
overridden to route-everything for both address families, any other peer
keeps its own stored tunnel address. -/
def enabledPeersData (peers : List Peer) : List (Peer × String) :=
  peers.filterMap (fun p =>
    if p.Enabled then
      some (p, if p.IsExitNode then "0.0.0.0/0, ::/0" else p.AllowedIPs)
    else none)

/-- `RenderServerConfig` (wireguard.go lines 120-148): the interface section,
the single newline the template emits before the peer range, then one section
per enabled peer. -/
def RenderServerConfig (cfg : AppConfig) (postUpCmds postDownCmds : List String) : String :=
  interfaceSection cfg.Server postUpCmds postDownCmds ++ "\n"
  ++ String.join ((enabledPeersData cfg.Peers).map (fun pe => peerSection pe.1 pe.2))

/-- `Store.renderWGConfig` (config.go lines 115-119): regenerate both policy
command lists, then render, with explicit exit-node map iteration orders for
the two generator calls. -/
def RenderWGConfigWith (cfg : AppConfig) (ordUp ordDown : List Peer) : String :=
  RenderServerConfig cfg (GeneratePostUpCommandsWith ordUp cfg)
    (GeneratePostDownCommandsWith ordDown cfg)

/-- `Store.renderWGConfig` at the canonical iteration order. -/
def RenderWGConfig (cfg : AppConfig) : String :=
  RenderWGConfigWith cfg (exitNodesIter cfg) (exitNodesIter cfg)

/-- C5: an entry of the rendered peer data is exactly an enabled peer of the
configuration paired with its effective AllowedIPs value: the fixed
route-everything constant for both address families when the peer is an exit
node, regardless of its stored tunnel address, and the peer's own stored
tunnel address otherwise. -/
theorem effectiveAllowedIPs_spec (peers : List Peer) (p : Peer) (eff : String) :
    (p, eff) ∈ enabledPeersData peers
      ↔ p ∈ peers ∧ p.Enabled = true
        ∧ eff = (if p.IsExitNode = true then "0.0.0.0/0, ::/0" else p.AllowedIPs) := by
  simp only [enabledPeersData, List.mem_filterMap]
  constructor
  · rintro ⟨q, hq, hsome⟩
    by_cases hqe : q.Enabled = true
    · simp only [hqe, if_true, Option.some.injEq, Prod.mk.injEq] at hsome
      obtain ⟨rfl, rfl⟩ := hsome
      exact ⟨hq, hqe, rfl⟩
    · simp [hqe] at hsome
  · rintro ⟨hp, hpe, rfl⟩
    exact ⟨p, hp, by simp [hpe]⟩

theorem perm_eq_of_length_le_one {α : Type} {l m : List α}
    (h : l.Perm m) (hm : m.length ≤ 1) : l = m := by
  cases m with
  | nil => exact h.eq_nil
  | cons a t =>
    cases t with
    | nil => exact List.perm_singleton.mp h
    | cons b t2 => simp at hm

/-- C4 (amended): the rendered config is a pure function of the state and of
the iteration orders used for the exit-node map, and whenever the state holds
at most one eligible exit node the orders are immaterial, so two renders from
an unchanged state are byte-for-byte identical. -/
theorem render_deterministic_of_single_exit (cfg : AppConfig)
    (o1 o2 o1' o2' : List Peer)
    (h1 : o1.Perm (exitNodesIter cfg)) (h2 : o2.Perm (exitNodesIter cfg))
    (h1' : o1'.Perm (exitNodesIter cfg)) (h2' : o2'.Perm (exitNodesIter cfg))
    (hsingle : (exitNodesMap cfg).length ≤ 1) :
    RenderWGConfigWith cfg o1 o2 = RenderWGConfigWith cfg o1' o2' := by
  have hlen : (exitNodesIter cfg).length ≤ 1 := by
    simpa [exitNodesIter] using hsingle
  rw [perm_eq_of_length_le_one h1 hlen, perm_eq_of_length_le_one h2 hlen,
    perm_eq_of_length_le_one h1' hlen, perm_eq_of_length_le_one h2' hlen]

/-- Witness for `render_deterministic_of_single_exit` at a concrete
single-exit-node configuration. -/
theorem render_deterministic_witness :
    RenderWGConfigWith cfgTwoRules [peerE] [peerE]
      = RenderWGConfigWith cfgTwoRules [peerE] [peerE] :=
  render_deterministic_of_single_exit cfgTwoRules [peerE] [peerE] [peerE] [peerE]
    (by decide) (by decide) (by decide) (by decide) (by decide)

/-- A second enabled exit node, for the C4 counterexample. -/
def peerF : Peer :=
  { ID := "F", Name := "exit2", AllowedIPs := "10.0.0.6/32", IsExitNode := true,
    RoutingTableID := 101, Enabled := true,
    PrivateKey := "FFFFFFFFFFFFFFFFFFFFFFFFFFFFFFFFFFFFFFFFFFF=",
    PublicKey := "fFFFFFFFFFFFFFFFFFFFFFFFFFFFFFFFFFFFFFFFFFF=" }

def cfgTwoExits : AppConfig :=
  { Server := { PrivateKey := "sk", ListenPort := 51820, Address := "10.0.0.1/24" },
    Peers := [peerE, peerF] }

/-- C4 counterexample: with two eligible exit nodes, two iteration orders of
the Go exit-node map — both possible, since Go leaves map iteration order
unspecified — render different bytes from the same unchanged state. -/
theorem render_order_dependent_cex :
    ([peerE, peerF]).Perm (exitNodesIter cfgTwoExits)
    ∧ ([peerF, peerE]).Perm (exitNodesIter cfgTwoExits)
    ∧ RenderWGConfigWith cfgTwoExits [peerE, peerF] [peerE, peerF]
        ≠ RenderWGConfigWith cfgTwoExits [peerF, peerE] [peerF, peerE] := by
  exact ⟨by decide, by decide, by decide⟩

/-! ## internal/handlers/peers.go: mutation entry points,
and internal/config/config.go: the store write pipeline -/

/-- Characters the peer display name accepts (`nameRegexp`,
src/README.md models section). -/
def nameCharOK (c : Char) : Bool :=
  c.isAlphanum || c == ' ' || c == '_' || c == '.' || c == '-'

/-- UTF-8 byte length: Go's `len` on a string. -/
def utf8Len (l : List Char) : Nat := l.foldl (fun n c => n + c.utf8Size) 0

/-- A standard-base64 alphabet character. -/
def isBase64Char (c : Char) : Bool := c.isAlphanum || c == '+' || c == '/'

/-- `isValidBase64Key` (src/README.md, models section): after trimming, 44
characters that `base64.StdEncoding.DecodeString` accepts — eleven four-char
quanta with padding only as the final one or two characters.
(`DecodeString`'s tolerance of interior CR/LF is not modelled.) -/
def validBase64Key (s : String) : Bool :=
  let t := trimChars s.data
  decide (t.length = 44) && (t.take 42).all isBase64Char &&
    (match t.drop 42 with
     | [c1, c2] =>
       (isBase64Char c1 && isBase64Char c2)
         || (isBase64Char c1 && c2 == '=')
         || (c1 == '=' && c2 == '=')
     | _ => false)

/-- `isValidCIDRList` (src/README.md, models section): every comma-separated
field, trimmed, is nonempty and parses as a CIDR. -/
def validCIDRList (s : String) : Bool :=
  (splitChars ',' s.data).all (fun part =>
    let p := trimChars part
    !(p.isEmpty) && (parseCIDRAddr (String.mk p)).isSome)

/-- One label of `hostnameRegexp` (src/README.md, models section): nonempty,
alphanumerics and dashes, first and last character alphanumeric. -/
def hostnameLabelOK (l : List Char) : Bool :=
  !(l.isEmpty) && l.all (fun c => c.isAlphanum || c == '-')
    && (l.headD '-').isAlphanum && (l.getLastD '-').isAlphanum

/-- `isValidDNSList` (src/README.md, models section): every comma-separated
field, trimmed, is nonempty and either an IP literal or a hostname matching
`hostnameRegexp`.  `net.ParseIP`'s IPv6 forms are not modelled. -/
def validDNSList (s : String) : Bool :=
  (splitChars ',' s.data).all (fun part =>
    let p := trimChars part
    !(p.isEmpty) && (validIPv4 p || (splitChars '.' p).all hostnameLabelOK))

/-- `isValidEndpoint` (src/README.md, models section): `net.SplitHostPort`
splits at the last colon — nonempty colon-free host, decimal port 1..65535.
Bracketed IPv6 hosts and `Atoi`'s signed port strings are not modelled. -/
def validEndpoint (s : String) : Bool :=
  let l := s.data
  let portRev := l.reverse.takeWhile (· != ':')
  if portRev.length = l.length then false
  else
    let host := l.take (l.length - portRev.length - 1)
    let port := portRev.reverse
    !(host.isEmpty) && host.all (· != ':')
      && !(port.isEmpty) && port.all (·.isDigit)
      && decide (1 ≤ digitsVal port) && decide (digitsVal port ≤ 65535)

/-- `Peer.Validate` (src/README.md, models section): every field violation,
collected in source order as (field, message) pairs; the three name rules
are chained else-ifs, as are each key's required/base64 pair and the
tunnel-address required/CIDR pair. -/
def Validate (p : Peer) : List (String × String) :=
  (if trimChars p.Name.data = [] then [("name", "required")]
   else if 64 < utf8Len p.Name.data then [("name", "maximum 64 characters")]
   else if ¬ p.Name.data.all nameCharOK then
     [("name", "only letters, numbers, spaces, dashes, dots, underscores")]
   else [])
  ++ (if p.PrivateKey = "" then [("privateKey", "required")]
      else if ¬ validBase64Key p.PrivateKey then
        [("privateKey", "must be a 44-character base64 key")]
      else [])
  ++ (if p.PublicKey = "" then [("publicKey", "required")]
      else if ¬ validBase64Key p.PublicKey then
        [("publicKey", "must be a 44-character base64 key")]
      else [])
  ++ (if p.PresharedKey ≠ "" ∧ ¬ validBase64Key p.PresharedKey then
        [("presharedKey", "must be a 44-character base64 key")]
      else [])
  ++ (if p.AllowedIPs = "" then [("allowedIPs", "required")]
      else if ¬ validCIDRList p.AllowedIPs then
        [("allowedIPs", "must be comma-separated CIDRs")]
      else [])
  ++ (if p.Endpoint ≠ "" ∧ ¬ validEndpoint p.Endpoint then
        [("endpoint", "must be host:port")]
      else [])
  ++ (if p.ClientAllowedIPs ≠ "" ∧ ¬ validCIDRList p.ClientAllowedIPs then
        [("clientAllowedIPs", "must be comma-separated CIDRs")]
      else [])
  ++ (if p.DNS ≠ "" ∧ ¬ validDNSList p.DNS then
        [("dns", "must be comma-separated IPs or hostnames")]
      else [])
  ++ (if p.IsExitNode ∧ p.ExitNodeID ≠ "" then
        [("exitNodeID", "a peer cannot be both an exit node and use an exit node")]
      else [])

/-- An error a mutation function returns: a validation-error list
(`models.ValidationErrors`) or the handlers' "peer not found" error. -/
inductive WriteError where
  | validation (errs : List (String × String))
  | notFound
  deriving DecidableEq, Repr

/-- A side effect of the store's write pipeline (config.go lines 72-82):
atomic YAML persistence, atomic wg0.conf write, best-effort daemon reload. -/
inductive Effect where
  | saveYAML (cfg : AppConfig)
  | writeWGConf (content : String)
  | reloadWG
  deriving DecidableEq, Repr

/-- Result of `Store.Write`: the in-memory state afterwards, the performed
side effects in order, and the returned error. -/
structure WriteOutcome where
  config : AppConfig
  effects : List Effect
  err : Option WriteError
  deriving DecidableEq, Repr

/-- `Store.Write` (config.go lines 64-85).  The mutation function receives
the live state (Go passes a pointer into the store), so its changes are in
memory whether or not it reports an error; only when it returns nil do the
persist, render and best-effort reload steps run.  The mutation is modelled
as a function from the state to the mutated state and an optional error, the
pipeline's file-system and daemon interactions as an ordered effect trace. -/
def StoreWrite (fn : AppConfig → AppConfig × Option WriteError)
    (cfg : AppConfig) : WriteOutcome :=
  match fn cfg with
  | (cfg', some e) => { config := cfg', effects := [], err := some e }
  | (cfg', none) =>
    { config := cfg',
      effects := [.saveYAML cfg', .writeWGConf (RenderWGConfig cfg'), .reloadWG],
      err := none }

/-- The form fields the peer update handler reads (peers.go lines 239-244),
already parsed: `keepalive` is the uint16 result of ParseUint. -/
structure PeerForm where
  name : String := ""
  allowedIPs : String := ""
  endpoint : String := ""
  keepalive : Nat := 0
  dns : String := ""
  clientAllowedIPs : String := ""
  isExitNode : Bool := false
  exitNodeID : String := ""
  enabled : Bool := false
  deriving DecidableEq, Repr

/-- Mutating the peer `FindPeerByID` points at: Go mutates the first
list element with the given id in place. -/
def updateFirstByID (peers : List Peer) (id : String) (f : Peer → Peer) : List Peer :=
  match peers with
  | [] => []
  | p :: rest => if p.ID = id then f p :: rest else p :: updateFirstByID rest id f

/-- The mutation function `UpdatePeer` passes to `Store.Write`
(peers.go lines 246-283): find the peer, overwrite its fields from the form,
assign or release the routing table on exit-node transitions, cascade-clear
only when the peer stops being an exit node, then validate the updated peer
(after the state was already changed). -/
def updatePeerMutation (now : Nat) (id : String) (form : PeerForm)
    (cfg : AppConfig) : AppConfig × Option WriteError :=
  match FindPeerByID cfg.Peers id with
  | none => (cfg, some .notFound)
  | some p0 =>
    let wasExitNode := p0.IsExitNode
    let exitID := if form.isExitNode then "" else form.exitNodeID
    let peers1 := updateFirstByID cfg.Peers id (fun p =>
      { p with
        Name := strTrim form.name,
        AllowedIPs := strTrim form.allowedIPs,
        Endpoint := strTrim form.endpoint,
        PersistentKeepalive := form.keepalive,
        DNS := strTrim form.dns,
        ClientAllowedIPs := strTrim form.clientAllowedIPs,
        IsExitNode := form.isExitNode,
        ExitNodeID := exitID,
        Enabled := form.enabled,
        UpdatedAt := now })
    let peers2 :=
      if form.isExitNode ∧ p0.RoutingTableID = 0 then
        updateFirstByID peers1 id
          (fun p => { p with RoutingTableID := AssignRoutingTableID peers1 })
      else peers1
    let peers3 :=
      if ¬form.isExitNode then
        updateFirstByID peers2 id (fun p => { p with RoutingTableID := 0 })
      else peers2
    let peers4 :=
      if wasExitNode ∧ ¬form.isExitNode then CascadeClearExitNode peers3 id
      else peers3
    let errs :=
      match FindPeerByID peers4 id with
      | some p1 => Validate p1
      | none => []
    if errs = [] then ({ cfg with Peers := peers4 }, none)
    else ({ cfg with Peers := peers4 }, some (.validation errs))

/-- The mutation function `TogglePeer` passes to `Store.Write`
(peers.go lines 346-362): flip the enabled flag; when this disables an exit
node, cascade-clear every reference to it. -/
def togglePeerMutation (now : Nat) (id : String) (cfg : AppConfig) :
    AppConfig × Option WriteError :=
  match FindPeerByID cfg.Peers id with
  | none => (cfg, some .notFound)
  | some p0 =>
    let newEnabled := !p0.Enabled
    let peers1 := updateFirstByID cfg.Peers id
      (fun p => { p with Enabled := newEnabled, UpdatedAt := now })
    let peers2 :=
      if ¬newEnabled ∧ p0.IsExitNode then CascadeClearExitNode peers1 id
      else peers1
    ({ cfg with Peers := peers2 }, none)

/-- The mutation function `DeletePeer` passes to `Store.Write`
(peers.go lines 311-330): find the peer; when it is an exit node,
cascade-clear first; then remove it.  Go removes the element at the first
index whose ID matches; the cascade rewrites no ID, so this is the removal
of the first ID match from the cascaded list. -/
def deletePeerMutation (id : String) (cfg : AppConfig) :
    AppConfig × Option WriteError :=
  match FindPeerByID cfg.Peers id with
  | none => (cfg, some .notFound)
  | some p0 =>
    let peers1 :=
      if p0.IsExitNode then CascadeClearExitNode cfg.Peers id else cfg.Peers
    ({ cfg with Peers := peers1.eraseP (fun p => p.ID == id) }, none)

/-- The store's peer mutation entry points (update, toggle, delete). -/
inductive MutationOp where
  | update (now : Nat) (id : String) (form : PeerForm)
  | toggle (now : Nat) (id : String)
  | delete (id : String)
  deriving DecidableEq, Repr

/-- The id of the peer the operation targets. -/
def MutationOp.targetID : MutationOp → String
  | .update _ id _ => id
  | .toggle _ id => id
  | .delete id => id

/-- Run one entry point's mutation function. -/
def applyMutation : MutationOp → AppConfig → AppConfig × Option WriteError
  | .update now id form, cfg => updatePeerMutation now id form cfg
  | .toggle now id, cfg => togglePeerMutation now id cfg
  | .delete id, cfg => deletePeerMutation id cfg

/-- When each entry point actually cascade-clears, read off peers.go: update
only on the exit-node flag being dropped (lines 274-276), toggle on
disabling an enabled exit node (lines 356-358), delete always for an
exit node (lines 324-326). -/
def cascadeTriggered : MutationOp → Peer → Bool
  | .update _ _ form, p0 => p0.IsExitNode && !form.isExitNode
  | .toggle _ _, p0 => p0.IsExitNode && p0.Enabled
  | .delete _, p0 => p0.IsExitNode

theorem cascade_mem (peers : List Peer) (id : String) (hid : id ≠ "") :
    ∀ q ∈ CascadeClearExitNode peers id, q.ExitNodeID ≠ id := by
  intro q hq
  rw [CascadeClearExitNode] at hq
  obtain ⟨p, _, rfl⟩ := List.mem_map.mp hq
  by_cases h : p.ExitNodeID = id
  · rw [if_pos h]
    exact fun hcon => hid hcon.symm
  · rw [if_neg h]
    exact h

theorem update_mutation_peers (now : Nat) (id : String) (form : PeerForm)
    (cfg : AppConfig) (p0 : Peer)
    (hfind : FindPeerByID cfg.Peers id = some p0)
    (hwas : p0.IsExitNode = true) (hnf : form.isExitNode = false) :
    ∃ l, (updatePeerMutation now id form cfg).1.Peers = CascadeClearExitNode l id := by
  unfold updatePeerMutation
  rw [hfind]
  simp only [hwas, hnf, Bool.false_eq_true, false_and, if_false, not_false_iff,
    if_true, ite_true, ite_false, and_true, true_and]
  split
  · exact ⟨_, rfl⟩
  · exact ⟨_, rfl⟩

theorem toggle_mutation_peers (now : Nat) (id : String) (cfg : AppConfig) (p0 : Peer)
    (hfind : FindPeerByID cfg.Peers id = some p0)
    (hwas : p0.IsExitNode = true) (hen : p0.Enabled = true) :
    ∃ l, (togglePeerMutation now id cfg).1.Peers = CascadeClearExitNode l id := by
  unfold togglePeerMutation
  rw [hfind]
  simp [hwas, hen]
  exact ⟨_, rfl⟩

theorem delete_mutation_peers (id : String) (cfg : AppConfig) (p0 : Peer)
    (hfind : FindPeerByID cfg.Peers id = some p0)
    (hwas : p0.IsExitNode = true) :
    ∃ l, (deletePeerMutation id cfg).1.Peers
      = (CascadeClearExitNode l id).eraseP (fun p => p.ID == id) := by
  unfold deletePeerMutation
  rw [hfind]
  simp [hwas]
  exact ⟨_, rfl⟩

/-- Supporting theorem for C3: the cascade the entry points do perform.  A
mutation clears the exit-node reference of every peer that pointed at the
target whenever the entry point's own cascade condition holds: on update,
when the target stops being an exit node; on toggle, when an enabled exit
node is disabled; on delete, whenever the target is an exit node.  The
disable-through-update path is the one the code misses. -/
theorem mutation_cascade_clears (op : MutationOp) (cfg : AppConfig) (p0 : Peer)
    (hfind : FindPeerByID cfg.Peers op.targetID = some p0)
    (htrig : cascadeTriggered op p0 = true)
    (hid : op.targetID ≠ "") :
    ∀ q ∈ (applyMutation op cfg).1.Peers, q.ExitNodeID ≠ op.targetID := by
  intro q hq
  cases op with
  | update now id form =>
    simp only [MutationOp.targetID] at hfind hid ⊢
    simp only [cascadeTriggered, Bool.and_eq_true, Bool.not_eq_true'] at htrig
    obtain ⟨l, hl⟩ := update_mutation_peers now id form cfg p0 hfind htrig.1 htrig.2
    simp only [applyMutation] at hq
    rw [hl] at hq
    exact cascade_mem _ _ hid q hq
  | toggle now id =>
    simp only [MutationOp.targetID] at hfind hid ⊢
    simp only [cascadeTriggered, Bool.and_eq_true] at htrig
    obtain ⟨l, hl⟩ := toggle_mutation_peers now id cfg p0 hfind htrig.1 htrig.2
    simp only [applyMutation] at hq
    rw [hl] at hq
    exact cascade_mem _ _ hid q hq
  | delete id =>
    simp only [MutationOp.targetID] at hfind hid ⊢
    simp only [cascadeTriggered] at htrig
    obtain ⟨l, hl⟩ := delete_mutation_peers id cfg p0 hfind htrig
    simp only [applyMutation] at hq
    rw [hl] at hq
    exact cascade_mem _ _ hid q ((List.eraseP_sublist _).subset hq)

/-- Witness for `mutation_cascade_clears`: toggling the enabled exit node of
the concrete configuration clears every reference to it. -/
theorem mutation_cascade_clears_witness :
    ((applyMutation (.toggle 5 "E") cfgTwoRules).1.Peers.all
      (fun q => q.ExitNodeID != "E")) = true := by
  have h := mutation_cascade_clears (.toggle 5 "E") cfgTwoRules peerE
    (by decide) (by decide) (by decide)
  exact List.all_eq_true.mpr (fun q hq => by simpa using h q hq)

/-- The C3 counterexample form: the edit form disables peer E while keeping
its exit-node flag. -/
def formKeepExitDisable : PeerForm :=
  { name := "exit", allowedIPs := "10.0.0.5/32", isExitNode := true,
    exitNodeID := "", enabled := false }

/-- C3: the code evaluated at the failing input.  Updating the exit node E
to disabled (exit-node flag kept) succeeds, leaves E a disabled exit node,
and does not clear the other peers' references to E — the update entry point
cascades only when the exit-node flag is dropped (peers.go lines 274-276),
contradicting the claimed (and DESIGN.md-documented) cascade on disable. -/
theorem update_disable_no_cascade_cex :
    (updatePeerMutation 7 "E" formKeepExitDisable cfgTwoRules).2 = none
    ∧ (∃ q ∈ (updatePeerMutation 7 "E" formKeepExitDisable cfgTwoRules).1.Peers,
        q.ID = "E" ∧ q.IsExitNode = true ∧ q.Enabled = false)
    ∧ (∃ q ∈ (updatePeerMutation 7 "E" formKeepExitDisable cfgTwoRules).1.Peers,
        q.ExitNodeID = "E") := by
  exact ⟨by decide, by decide, by decide⟩

/-- C1 (amended): when the mutation function reports a failure, none of the
persist, render and reload steps run and the returned error is the mutation's
error; the in-memory state is exactly whatever the mutation function left
behind, so it equals the pre-write state precisely when the failing mutation
did not change the state — which the store itself does not guarantee, since
the mutation receives a pointer to the live state. -/
theorem storeWrite_failure_no_effects
    (fn : AppConfig → AppConfig × Option WriteError) (cfg : AppConfig)
    (e : WriteError) (hf : (fn cfg).2 = some e) :
    (StoreWrite fn cfg).effects = []
    ∧ (StoreWrite fn cfg).err = some e
    ∧ (StoreWrite fn cfg).config = (fn cfg).1
    ∧ ((fn cfg).1 = cfg → (StoreWrite fn cfg).config = cfg) := by
  rcases hfc : fn cfg with ⟨cfg', e2⟩
  have he2 : e2 = some e := by rw [hfc] at hf; exact hf
  subst he2
  simp [StoreWrite, hfc]

/-- A peer-update form with all fields empty. -/
def formEmpty : PeerForm := {}

/-- Witness for `storeWrite_failure_no_effects`: a write whose mutation fails
with "peer not found" performs no effects and leaves the state unchanged. -/
theorem storeWrite_failure_witness :
    (StoreWrite (updatePeerMutation 3 "missing" formEmpty) cfgTwoRules).effects = []
    ∧ (StoreWrite (updatePeerMutation 3 "missing" formEmpty) cfgTwoRules).config
        = cfgTwoRules :=
  ⟨(storeWrite_failure_no_effects (updatePeerMutation 3 "missing" formEmpty)
      cfgTwoRules .notFound (by decide)).1,
   (storeWrite_failure_no_effects (updatePeerMutation 3 "missing" formEmpty)
      cfgTwoRules .notFound (by decide)).2.2.2 (by decide)⟩

/-- The C1 counterexample form: a peer rename to a name with a character the
validation charset refuses. -/
def formBadName : PeerForm :=
  { name := "bad!name", allowedIPs := "10.0.0.2/32", exitNodeID := "E",
    enabled := true }

/-- C1 counterexample: UpdatePeer's mutation function mutates the found peer
first and validates afterwards, so a write whose mutation reports a
validation failure runs none of the pipeline steps, yet the in-memory state
is no longer the state from before the write. -/
theorem storeWrite_failed_validation_mutates_cex :
    (StoreWrite (updatePeerMutation 2 "A" formBadName) cfgTwoRules).effects = []
    ∧ (StoreWrite (updatePeerMutation 2 "A" formBadName) cfgTwoRules).err ≠ none
    ∧ (StoreWrite (updatePeerMutation 2 "A" formBadName) cfgTwoRules).config
        ≠ cfgTwoRules := by
  exact ⟨by decide, by decide, by decide⟩

/-! ## internal/ipam: next available address -/

/-- An IPv4 address from its four octets, as the Nat value of its bytes. -/
def ipv4 (a b c d : Nat) : Nat := ((a * 256 + b) * 256 + c) * 256 + d

/-- The subnet's network address (ipam.go `ipNet.IP`, the masked server
address) for prefix length `m`. -/
def subnetNetwork (serverIP m : Nat) : Nat :=
  serverIP / 2 ^ (32 - m) * 2 ^ (32 - m)

/-- The subnet's broadcast address (ipam.go `broadcastAddress`: network with
all host bits set). -/
def subnetBroadcast (serverIP m : Nat) : Nat :=
  subnetNetwork serverIP m + 2 ^ (32 - m) - 1

/-- Consecutive addresses starting at `start`, `n` of them: the addresses
the ipam scan visits, in ascending order. -/
def natsFrom (start : Nat) : Nat → List Nat
  | 0 => []
  | n + 1 => start :: natsFrom (start + 1) n

/-- `NextAvailableIP` (ipam.go lines 12-47) after CIDR parsing: addresses
are IPv4 values, the server interface address is `serverIP` with prefix
length `m`.  Reserved are the server address, the subnet's network and
broadcast addresses and every used address; the scan starts just after the
network address and walks upward while still inside the subnet, returning
the first unreserved address (which Go renders as a single-host /32 prefix),
or nothing when the subnet is exhausted. -/
def NextAvailableIP (serverIP m : Nat) (usedIPs : List Nat) : Option Nat :=
  let reserved :=
    serverIP :: subnetNetwork serverIP m :: subnetBroadcast serverIP m :: usedIPs
  (natsFrom (subnetNetwork serverIP m + 1) (2 ^ (32 - m) - 1)).find?
    (fun ip => decide (ip ∉ reserved))

theorem natsFrom_find_spec (p : Nat → Bool) :
    ∀ (n start a : Nat), (natsFrom start n).find? p = some a →
      p a = true ∧ start ≤ a ∧ a < start + n
      ∧ ∀ b, start ≤ b → b < a → p b = false := by
  intro n
  induction n with
  | zero => intro start a h; cases h
  | succ k ih =>
    intro start a h
    rw [natsFrom] at h
    by_cases hp : p start
    · rw [List.find?_cons_of_pos _ hp] at h
      cases h
      exact ⟨hp, le_refl _, by omega, fun b hb1 hb2 => absurd hb1 (by omega)⟩
    · have hp' : p start = false := by simpa using hp
      rw [List.find?_cons_of_neg _ hp] at h
      obtain ⟨ha, h1, h2, hmin⟩ := ih (start + 1) a h
      refine ⟨ha, by omega, by omega, ?_⟩
      intro b hb1 hb2
      rcases Nat.eq_or_lt_of_le hb1 with rfl | hlt
      · exact hp'
      · exact hmin b (by omega) hb2

/-- C6: whenever the allocator succeeds, the returned address lies strictly
inside the subnet's host range (so it is neither the network nor past the
broadcast), differs from the network, broadcast and server addresses, is not
in the used set, and every smaller host address is reserved — it is the
numerically smallest eligible address.  In particular, for 10.0.0.1/24 with
nothing used the first allocation is 10.0.0.2, and with 10.0.0.2 also used
it is 10.0.0.3. -/
theorem nextAvailableIP_spec :
    (∀ (serverIP m : Nat) (usedIPs : List Nat) (ip : Nat),
      NextAvailableIP serverIP m usedIPs = some ip →
        subnetNetwork serverIP m < ip
        ∧ ip < subnetNetwork serverIP m + 2 ^ (32 - m)
        ∧ ip ≠ subnetNetwork serverIP m
        ∧ ip ≠ subnetBroadcast serverIP m
        ∧ ip ≠ serverIP
        ∧ ip ∉ usedIPs
        ∧ ∀ prior, subnetNetwork serverIP m < prior → prior < ip →
            (prior = serverIP ∨ prior = subnetBroadcast serverIP m ∨ prior ∈ usedIPs))
    ∧ NextAvailableIP (ipv4 10 0 0 1) 24 [] = some (ipv4 10 0 0 2)
    ∧ NextAvailableIP (ipv4 10 0 0 1) 24 [ipv4 10 0 0 2] = some (ipv4 10 0 0 3) := by
  refine ⟨?_, by decide, by decide⟩
  intro serverIP m usedIPs ip h
  have hbs : 0 < 2 ^ (32 - m) := Nat.pos_pow_of_pos _ (by norm_num)
  obtain ⟨hip, h1, h2, hmin⟩ := natsFrom_find_spec _ _ _ _ h
  have hfree : ip ∉ (serverIP :: subnetNetwork serverIP m ::
      subnetBroadcast serverIP m :: usedIPs) := of_decide_eq_true hip
  simp only [List.mem_cons, not_or] at hfree
  obtain ⟨hns, hnn, hnb, hnu⟩ := hfree
  refine ⟨by omega, by omega, hnn, hnb, hns, hnu, ?_⟩
  intro prior hp1 hp2
  have hres : prior ∈ (serverIP :: subnetNetwork serverIP m ::
      subnetBroadcast serverIP m :: usedIPs) := by
    have hpf := hmin prior (by omega) hp2
    have hnn2 : ¬ (prior ∉ (serverIP :: subnetNetwork serverIP m ::
        subnetBroadcast serverIP m :: usedIPs)) := of_decide_eq_false hpf
    exact not_not.mp hnn2
  rcases List.mem_cons.mp hres with rfl | hres2
  · exact Or.inl rfl
  rcases List.mem_cons.mp hres2 with rfl | hres3
  · omega
  rcases List.mem_cons.mp hres3 with rfl | hres4
  · exact Or.inr (Or.inl rfl)
  · exact Or.inr (Or.inr hres4)

/-! ## internal/wgstats/wgstats.go: telemetry collector -/

/-- Aggregate interface stats (wgstats.go lines 22-27).  Byte counters are
int64, rates are float64 byte-per-second values modelled as rationals. -/
structure InterfaceStats where
  TotalRx : Int := 0
  TotalTx : Int := 0
  CurrentRxPS : Rat := 0
  CurrentTxPS : Rat := 0
  deriving DecidableEq, Repr

/-- Per-peer stats (wgstats.go lines 30-38); the handshake instant is kept
as the parsed epoch value. -/
structure PeerStats where
  PublicKey : String := ""
  Endpoint : String := ""
  LatestHandshake : Int := 0
  TransferRx : Int := 0
  TransferTx : Int := 0
  CurrentRxPS : Rat := 0
  CurrentTxPS : Rat := 0
  deriving DecidableEq, Repr

/-- One bandwidth sample point (wgstats.go lines 41-45). -/
structure HistoryPoint where
  Time : Rat := 0
  RxPS : Rat := 0
  TxPS : Rat := 0
  deriving DecidableEq, Repr

/-- One parsed peer line of `wg show wg0 dump` (wgstats.go lines 204-214):
public key, endpoint, last-handshake epoch, cumulative receive and transmit
bytes.  Lines with fewer than eight fields are skipped by the parser and not
modelled. -/
structure PeerLine where
  pubKey : String := ""
  endpoint : String := ""
  handshakeUnix : Int := 0
  rx : Int := 0
  tx : Int := 0
  deriving DecidableEq, Repr

/-- Collector state (wgstats.go lines 48-62).  Go maps are modelled as
association lists in insertion order; the zero `time.Time` previous instant
is `none`. -/
structure CollectorState where
  iface : InterfaceStats := {}
  peers : List (String × PeerStats) := []
  history : List HistoryPoint := []
  peerHistory : List (String × List HistoryPoint) := []
  prevRx : Int := 0
  prevTx : Int := 0
  prevPeerRx : List (String × Int) := []
  prevPeerTx : List (String × Int) := []
  prevTime : Option Rat := none
  isUp : Bool := false
  deriving DecidableEq, Repr

/-- `NewCollector` (wgstats.go lines 65-73): empty maps, no history, no
previous sample. -/
def NewCollector : CollectorState := {}

/-- Go map assignment on an association list: replace an existing key's
value in place, else append. -/
def alistSet {α : Type} (m : List (String × α)) (k : String) (v : α) :
    List (String × α) :=
  if m.any (fun e => e.1 == k) then m.map (fun e => if e.1 == k then (k, v) else e)
  else m ++ [(k, v)]

/-- Go map lookup on an association list. -/
def alistGet {α : Type} (m : List (String × α)) (k : String) : Option α :=
  (m.find? (fun e => e.1 == k)).map Prod.snd

/-- The guarded rate computation of `Collector.poll` (wgstats.go lines
226-237 for a peer; lines 272-279 compute the aggregate the same way with
both previous counters always present): both rates are zero unless a
previous sample instant exists, elapsed time is positive, both previous
counters are present, and neither counter decreased; otherwise they are the
counter deltas divided by the elapsed seconds. -/
def rateOfCounters (dt : Rat) (prevRx prevTx : Option Int) (rx tx : Int) :
    Rat × Rat :=
  match prevRx, prevTx with
  | some pr, some pt =>
    if pr ≤ rx ∧ pt ≤ tx then
      (((rx - pr : Int) : Rat) / dt, ((tx - pt : Int) : Rat) / dt)
    else (0, 0)
  | _, _ => (0, 0)

def rateGuard (prevTime : Option Rat) (now : Rat) (prevRx prevTx : Option Int)
    (rx tx : Int) : Rat × Rat :=
  match prevTime with
  | none => (0, 0)
  | some t0 =>
    if 0 < now - t0 then rateOfCounters (now - t0) prevRx prevTx rx tx
    else (0, 0)

/-- Ring-buffer append (wgstats.go lines 253-257 and 293-296): append the
newest point, then keep only the newest `HistorySize = 60` points. -/
def trimAppend (h : List HistoryPoint) (pt : HistoryPoint) : List HistoryPoint :=
  let h2 := h ++ [pt]
  if 60 < h2.length then h2.drop (h2.length - 60) else h2

/-- The state the per-line loop of `Collector.poll` threads
(wgstats.go lines 201-259). -/
structure ScanState where
  peers : List (String × PeerStats) := []
  peerHistory : List (String × List HistoryPoint) := []
  prevPeerRx : List (String × Int) := []
  prevPeerTx : List (String × Int) := []
  totalRx : Int := 0
  totalTx : Int := 0
  seen : List String := []
  deriving DecidableEq, Repr

/-- One iteration of the per-line loop (wgstats.go lines 204-259):
accumulate the totals, mark the peer seen, compute its guarded rates from
the previous counters, store its stats, record the new previous counters,
and append to its ring buffer. -/
def scanLine (prevTime : Option Rat) (now : Rat) (s : ScanState) (l : PeerLine) :
    ScanState :=
  let rates := rateGuard prevTime now (alistGet s.prevPeerRx l.pubKey)
    (alistGet s.prevPeerTx l.pubKey) l.rx l.tx
  { peers := alistSet s.peers l.pubKey
      { PublicKey := l.pubKey, Endpoint := l.endpoint,
        LatestHandshake := l.handshakeUnix, TransferRx := l.rx,
        TransferTx := l.tx, CurrentRxPS := rates.1, CurrentTxPS := rates.2 },
    peerHistory := alistSet s.peerHistory l.pubKey
      (trimAppend ((alistGet s.peerHistory l.pubKey).getD [])
        { Time := now, RxPS := rates.1, TxPS := rates.2 }),
    prevPeerRx := alistSet s.prevPeerRx l.pubKey l.rx,
    prevPeerTx := alistSet s.prevPeerTx l.pubKey l.tx,
    totalRx := s.totalRx + l.rx,
    totalTx := s.totalTx + l.tx,
    seen := l.pubKey :: s.seen }

/-- One poll: either the external status query failed at that instant, or it
returned the parsed peer lines. -/
inductive PollInput where
  | failure (now : Rat)
  | success (now : Rat) (lines : List PeerLine)
  deriving DecidableEq, Repr

/-- `Collector.poll` (wgstats.go lines 181-297).  On failure, only the up
flag drops (lines 188-191).  On success: mark up, run the per-line loop,
purge every previously known peer absent from this dump from the stats and
history maps (lines 262-269), compute the guarded aggregate rates, record
the new totals and instant, and append to the aggregate ring buffer. -/
def poll (st : CollectorState) (input : PollInput) : CollectorState :=
  match input with
  | .failure _ => { st with isUp := false }
  | .success now lines =>
    let s0 : ScanState :=
      { peers := st.peers, peerHistory := st.peerHistory,
        prevPeerRx := st.prevPeerRx, prevPeerTx := st.prevPeerTx,
        totalRx := 0, totalTx := 0, seen := [] }
    let s1 := lines.foldl (scanLine st.prevTime now) s0
    let staleKey : String → Bool := fun k =>
      s1.peers.any (fun e => e.1 == k) && !(s1.seen.contains k)
    let arates := rateGuard st.prevTime now (some st.prevRx) (some st.prevTx)
      s1.totalRx s1.totalTx
    { iface :=
        { TotalRx := s1.totalRx, TotalTx := s1.totalTx,
          CurrentRxPS := arates.1, CurrentTxPS := arates.2 },
      peers := s1.peers.filter (fun e => !(staleKey e.1)),
      history := trimAppend st.history { Time := now, RxPS := arates.1, TxPS := arates.2 },
      peerHistory := s1.peerHistory.filter (fun e => !(staleKey e.1)),
      prevRx := s1.totalRx,
      prevTx := s1.totalTx,
      prevPeerRx := s1.prevPeerRx.filter (fun e => !(staleKey e.1)),
      prevPeerTx := s1.prevPeerTx.filter (fun e => !(staleKey e.1)),
      prevTime := some now,
      isUp := true }

/-- The collector state after a sequence of polls from a fresh collector. -/
def pollSeq (inputs : List PollInput) : CollectorState :=
  inputs.foldl poll NewCollector

theorem rateGuard_nonneg (prevTime : Option Rat) (now : Rat)
    (prevRx prevTx : Option Int) (rx tx : Int) :
    0 ≤ (rateGuard prevTime now prevRx prevTx rx tx).1
    ∧ 0 ≤ (rateGuard prevTime now prevRx prevTx rx tx).2 := by
  cases prevTime with
  | none => exact ⟨le_refl 0, le_refl 0⟩
  | some t0 =>
    simp only [rateGuard]
    by_cases hdt : (0 : Rat) < now - t0
    · rw [if_pos hdt]
      cases prevRx with
      | none => cases prevTx <;> exact ⟨le_refl 0, le_refl 0⟩
      | some pr =>
        cases prevTx with
        | none => exact ⟨le_refl 0, le_refl 0⟩
        | some pt =>
          simp only [rateOfCounters]
          by_cases hc : pr ≤ rx ∧ pt ≤ tx
          · rw [if_pos hc]
            constructor
            · exact div_nonneg (by exact_mod_cast Int.sub_nonneg.mpr hc.1) (le_of_lt hdt)
            · exact div_nonneg (by exact_mod_cast Int.sub_nonneg.mpr hc.2) (le_of_lt hdt)
          · rw [if_neg hc]
            exact ⟨le_refl 0, le_refl 0⟩
    · rw [if_neg hdt]
      exact ⟨le_refl 0, le_refl 0⟩

theorem alistSet_forall {α : Type} (P : String × α → Prop) (m : List (String × α))
    (k : String) (v : α) (hm : ∀ e ∈ m, P e) (hv : P (k, v)) :
    ∀ e ∈ alistSet m k v, P e := by
  intro e he
  rw [alistSet] at he
  split at he
  · obtain ⟨e0, he0, rfl⟩ := List.mem_map.mp he
    by_cases hk : e0.1 == k
    · rw [if_pos hk]
      exact hv
    · rw [if_neg hk]
      exact hm e0 he0
  · rcases List.mem_append.mp he with h1 | h2
    · exact hm e h1
    · rw [List.mem_singleton] at h2
      subst h2
      exact hv

theorem scan_peers_nonneg (prevTime : Option Rat) (now : Rat) :
    ∀ (lines : List PeerLine) (s : ScanState),
      (∀ e ∈ s.peers, 0 ≤ e.2.CurrentRxPS ∧ 0 ≤ e.2.CurrentTxPS) →
      ∀ e ∈ (lines.foldl (scanLine prevTime now) s).peers,
        0 ≤ e.2.CurrentRxPS ∧ 0 ≤ e.2.CurrentTxPS := by
  intro lines
  induction lines with
  | nil => intro s hs; exact hs
  | cons l rest ih =>
    intro s hs
    rw [List.foldl_cons]
    refine ih (scanLine prevTime now s l) ?_
    simp only [scanLine]
    exact alistSet_forall _ _ _ _ hs
      (rateGuard_nonneg prevTime now (alistGet s.prevPeerRx l.pubKey)
        (alistGet s.prevPeerTx l.pubKey) l.rx l.tx)

theorem trimAppend_length_le (h : List HistoryPoint) (pt : HistoryPoint) :
    (trimAppend h pt).length ≤ 60 := by
  rw [trimAppend]
  split
  · rw [List.length_drop]
    omega
  · omega

theorem scan_peerHistory_bounded (prevTime : Option Rat) (now : Rat) :
    ∀ (lines : List PeerLine) (s : ScanState),
      (∀ e ∈ s.peerHistory, e.2.length ≤ 60) →
      ∀ e ∈ (lines.foldl (scanLine prevTime now) s).peerHistory, e.2.length ≤ 60 := by
  intro lines
  induction lines with
  | nil => intro s hs; exact hs
  | cons l rest ih =>
    intro s hs
    rw [List.foldl_cons]
    refine ih (scanLine prevTime now s l) ?_
    simp only [scanLine]
    exact alistSet_forall _ _ _ _ hs (trimAppend_length_le _ _)

/-- All rates currently stored by the collector are nonnegative. -/
def ratesNonneg (st : CollectorState) : Prop :=
  0 ≤ st.iface.CurrentRxPS ∧ 0 ≤ st.iface.CurrentTxPS
  ∧ ∀ e ∈ st.peers, 0 ≤ e.2.CurrentRxPS ∧ 0 ≤ e.2.CurrentTxPS

/-- Every history buffer holds at most `HistorySize = 60` points. -/
def buffersBounded (st : CollectorState) : Prop :=
  st.history.length ≤ 60 ∧ ∀ e ∈ st.peerHistory, e.2.length ≤ 60

theorem poll_preserves_nonneg (st : CollectorState) (input : PollInput)
    (h : ratesNonneg st) : ratesNonneg (poll st input) := by
  cases input with
  | failure now => exact h
  | success now lines =>
    simp only [poll, ratesNonneg]
    refine ⟨(rateGuard_nonneg _ _ _ _ _ _).1, (rateGuard_nonneg _ _ _ _ _ _).2, ?_⟩
    intro e he
    exact scan_peers_nonneg st.prevTime now lines _ h.2.2 e (List.mem_of_mem_filter he)

theorem poll_preserves_bounded (st : CollectorState) (input : PollInput)
    (h : buffersBounded st) : buffersBounded (poll st input) := by
  cases input with
  | failure now => exact h
  | success now lines =>
    simp only [poll, buffersBounded]
    refine ⟨trimAppend_length_le _ _, ?_⟩
    intro e he
    exact scan_peerHistory_bounded st.prevTime now lines _ h.2 e
      (List.mem_of_mem_filter he)

theorem foldl_poll_nonneg (inputs : List PollInput) :
    ∀ st : CollectorState, ratesNonneg st → ratesNonneg (inputs.foldl poll st) := by
  induction inputs with
  | nil => intro st h; exact h
  | cons i rest ih =>
    intro st h
    rw [List.foldl_cons]
    exact ih (poll st i) (poll_preserves_nonneg st i h)

theorem foldl_poll_bounded (inputs : List PollInput) :
    ∀ st : CollectorState, buffersBounded st → buffersBounded (inputs.foldl poll st) := by
  induction inputs with
  | nil => intro st h; exact h
  | cons i rest ih =>
    intro st h
    rw [List.foldl_cons]
    exact ih (poll st i) (poll_preserves_bounded st i h)

/-- C8: after any sequence of telemetry samples, every stored rate — the two
aggregate interface rates and both rates of every per-peer entry — is
nonnegative: when a cumulative counter decreased since the previous sample
the guarded computation reports zero instead of a negative rate. -/
theorem rates_never_negative (inputs : List PollInput) :
    ratesNonneg (pollSeq inputs) := by
  rw [pollSeq]
  refine foldl_poll_nonneg inputs NewCollector ⟨le_refl 0, le_refl 0, ?_⟩
  intro e he
  cases he

/-- C9: after every sequence of polls the aggregate buffer and every
per-peer buffer hold at most 60 points; and appending to a buffer within
capacity keeps every old point, while appending to a buffer at capacity
drops exactly the oldest point — FIFO eviction. -/
theorem history_bounded_fifo :
    (∀ inputs : List PollInput, buffersBounded (pollSeq inputs))
    ∧ ∀ (h : List HistoryPoint) (pt : HistoryPoint), h.length ≤ 60 →
        trimAppend h pt = if h.length = 60 then h.tail ++ [pt] else h ++ [pt] := by
  constructor
  · intro inputs
    rw [pollSeq]
    refine foldl_poll_bounded inputs NewCollector ⟨by simp [NewCollector], ?_⟩
    intro e he
    cases he
  · intro h pt hle
    rw [trimAppend]
    by_cases h60 : h.length = 60
    · rw [if_pos (by simp [h60]), if_pos h60]
      have hlen : (h ++ [pt]).length - 60 = 1 := by simp [h60]
      rw [hlen, List.drop_append_of_le_length (by omega), List.drop_one]
    · rw [if_neg (by simp; omega), if_neg h60]

/-- C10: in the per-peer rate computation, whenever either previous counter
is missing for the peer or either cumulative counter decreased since the
previous sample, both the receive and the transmit rate of that sample are
zero — including the rate of the counter that did not decrease. -/
theorem peer_rate_zero_on_reset (prevTime : Option Rat) (now : Rat)
    (prevRx prevTx : Option Int) (rx tx : Int)
    (hreset : prevRx = none ∨ prevTx = none
      ∨ (∃ pr, prevRx = some pr ∧ rx < pr) ∨ (∃ pt, prevTx = some pt ∧ tx < pt)) :
    rateGuard prevTime now prevRx prevTx rx tx = (0, 0) := by
  cases prevTime with
  | none => rfl
  | some t0 =>
    simp only [rateGuard]
    by_cases hdt : (0 : Rat) < now - t0
    · rw [if_pos hdt]
      rcases hreset with h | h | ⟨pr, hpr, hlt⟩ | ⟨pt, hpt, hlt⟩
      · subst h
        cases prevTx <;> rfl
      · subst h
        cases prevRx <;> rfl
      · subst hpr
        cases prevTx with
        | none => rfl
        | some pt2 =>
          simp only [rateOfCounters]
          rw [if_neg (fun hc => absurd hc.1 (not_le.mpr hlt))]
      · subst hpt
        cases prevRx with
        | none => rfl
        | some pr2 =>
          simp only [rateOfCounters]
          rw [if_neg (fun hc => absurd hc.2 (not_le.mpr hlt))]
    · rw [if_neg hdt]

/-- Witness for `peer_rate_zero_on_reset`: the receive counter fell from 5
to 3 while the transmit counter rose from 7 to 10; both rates are zero. -/
theorem peer_rate_zero_on_reset_witness :
    rateGuard (some 0) 2 (some 5) (some 7) 3 10 = (0, 0) :=
  peer_rate_zero_on_reset (some 0) 2 (some 5) (some 7) 3 10
    (Or.inr (Or.inr (Or.inl ⟨5, rfl, by decide⟩)))

end WgBusy
